import Mathlib

/-!
Verification of two modules of the napari repository against their
natural-language specification:

* `napari/_vispy/utils/gl.py` — OpenGL capability utilities: the
  `texture_dtypes` whitelist, `fix_data_dtype` dtype normalization and the
  `lru_cache`-backed `get_max_texture_sizes` query.
* `napari/utils/events/containers/_selectable_list.py` — the
  `SelectableEventedList` container: an ordered, evented list with a
  selection that is kept in sync with the list contents.

The embedding follows the Python source.  Numpy dtypes are modelled by
their `(kind, itemsize)` pair, which is exactly the data `fix_data_dtype`
inspects; arrays carry an abstract integer payload so that identity of the
returned array (as opposed to a converted copy) is observable.
-/

namespace Napari

/-- Numpy dtype kind characters, as returned by `np.dtype.kind`:
`b` boolean, `i` signed integer, `u` unsigned integer, `f` floating point,
`c` complex floating point, `m` timedelta, `M` datetime, `O` object,
`S` bytes, `U` str, `V` void. -/
inductive DtypeKind where
  | b | i | u | f | c | m | M | O | S | U | V
deriving DecidableEq, Repr

/-- A numpy dtype, modelled by the data `fix_data_dtype` inspects:
its kind character and its itemsize in bytes. -/
structure Dtype where
  kind : DtypeKind
  itemsize : Nat
deriving DecidableEq, Repr

/-- The dtype `np.dtype(np.uint8)`: unsigned integer of 1 byte. -/
def uint8 : Dtype := ⟨.u, 1⟩

/-- The dtype `np.dtype(np.uint16)`: unsigned integer of 2 bytes. -/
def uint16 : Dtype := ⟨.u, 2⟩

/-- The dtype `np.dtype(np.float32)`: floating point of 4 bytes. -/
def float32 : Dtype := ⟨.f, 4⟩

/-- The whitelist `texture_dtypes = [np.dtype(np.uint8), np.dtype(np.uint16),
np.dtype(np.float32)]` from `gl.py`. -/
def texture_dtypes : List Dtype := [uint8, uint16, float32]

/-- A numpy array, abstracted to its dtype and an opaque payload of
values; `fix_data_dtype` only inspects the dtype. -/
structure NDArray where
  dtype : Dtype
  data : List Int
deriving DecidableEq, Repr

/-- Numpy `data.astype(dtype_)`: a new array with the target dtype.  The value
conversion performed by numpy is irrelevant to the claims (they speak about
dtypes and about identity of the returned object), so the payload is kept. -/
def astype (a : NDArray) (d : Dtype) : NDArray := ⟨d, a.data⟩

/-- The dict `{'i': np.float32, 'f': np.float32, 'u': np.uint16,
'b': np.uint8}` indexed by `dtype.kind` in `fix_data_dtype`; `none` models
the `KeyError` branch. -/
def kindMap : DtypeKind → Option Dtype
  | .i => some float32
  | .f => some float32
  | .u => some uint16
  | .b => some uint8
  | _ => none

/-- Function `fix_data_dtype` from `gl.py`: if the dtype is already an accepted
texture dtype the input is returned unchanged; otherwise the kind is looked
up in the dict (raising `TypeError` on `KeyError`), the target `uint16` is
widened to `float32` for itemsize greater than 2, and the converted array
is returned. -/
def fix_data_dtype (data : NDArray) : Except String NDArray :=
  let dtype := data.dtype
  if dtype ∈ texture_dtypes then .ok data
  else
    match kindMap dtype.kind with
    | some d0 =>
        let d := if d0 = uint16 ∧ dtype.itemsize > 2 then float32 else d0
        .ok (astype data d)
    | none => .error "TypeError: type not allowed for texture"

/-- The value returned by a `gl.glGetParameter` query: an integer, or the
empty tuple `()` when the parameter is unavailable. -/
inductive GLParam where
  | val : Int → GLParam
  | empty : GLParam
deriving DecidableEq, Repr

/-- The OpenGL state visible to `get_max_texture_sizes`: the answers the
driver gives to the `GL_MAX_TEXTURE_SIZE` and `GL_MAX_3D_TEXTURE_SIZE`
queries. -/
structure GLEnv where
  maxTextureSize : GLParam
  max3DTextureSize : GLParam
deriving DecidableEq, Repr

/-- The `== ()` normalization in `get_max_texture_sizes`: a query result
equal to the empty tuple is replaced by `None`. -/
def glNormalize : GLParam → Option Int
  | .empty => none
  | .val n => some n

/-- The body of `get_max_texture_sizes` (ignoring its `lru_cache`
decorator): query both limits and replace an empty-tuple answer by
`None`. -/
def get_max_texture_sizes_body (env : GLEnv) : Option Int × Option Int :=
  (glNormalize env.maxTextureSize, glNormalize env.max3DTextureSize)

/-- The memo of the `functools.lru_cache` decorator on
`get_max_texture_sizes`: the function takes no arguments, so the cache is
either empty or holds the single stored result. -/
structure GLCache where
  cached : Option (Option Int × Option Int)
deriving DecidableEq, Repr

/-- One call of the cached `get_max_texture_sizes`: return the stored
result if there is one, otherwise run the body against the current GL
state and store the result. -/
def get_max_texture_sizes (env : GLEnv) (c : GLCache) :
    (Option Int × Option Int) × GLCache :=
  match c.cached with
  | some r => (r, c)
  | none =>
      let r := get_max_texture_sizes_body env
      (r, ⟨some r⟩)

/-- The state after a sequence of `n + 1` calls of the cached
`get_max_texture_sizes`, where `envs t` is the GL state at the time of call
`t` (the driver could in principle answer differently over time); returns
the value produced by call `n` and the cache after it.  The cache starts
empty. -/
def glCallSeq (envs : Nat → GLEnv) : Nat → (Option Int × Option Int) × GLCache
  | 0 => get_max_texture_sizes (envs 0) ⟨none⟩
  | n + 1 => get_max_texture_sizes (envs (n + 1)) (glCallSeq envs n).2

/-! ### Model of `SelectableEventedList`

The class in `_selectable_list.py` builds on `EventedList` and
`Selectable`/`Selection` (an evented set with a current item), which are
not part of the excerpt; their behaviour is modelled from the spec and the
docstring of `SelectableEventedList`.  The selection, a Python `set`, is
modelled as a duplicate-free list so that the snapshot iteration order of
`remove_selected` is concrete.  Raising an exception is modelled by a
`raised` flag next to the state reached at the moment of the raise, so
that "leaves the selection unchanged" is observable. -/

/-- List mutation events, as documented in the `SelectableEventedList`
docstring: `inserting`/`inserted` around an insertion and
`removing`/`removed` around a removal. -/
inductive ListEvent (α : Type) where
  | inserting : Nat → ListEvent α
  | inserted : Nat → α → ListEvent α
  | removing : Nat → ListEvent α
  | removed : Nat → α → ListEvent α
deriving DecidableEq, Repr

/-- The state of a `SelectableEventedList`: the list contents, the
selection set, the selection's current item, the `_activate_on_insert`
flag, and a log recording every emitted list event together with the list
contents at the moment of emission (so that "emitted before the change"
and "emitted after the change" are observable). -/
structure SEList (α : Type) where
  items : List α
  selection : List α
  current : Option α
  activateOnInsert : Bool
  log : List (ListEvent α × List α)
deriving DecidableEq, Repr

/-- The result of one method call: the state reached and whether a Python
exception was raised.  When `raised` is true, `state` is the state at the
moment of the raise, so mutations already performed persist. -/
structure OpResult (α : Type) where
  state : SEList α
  raised : Bool
deriving DecidableEq, Repr

/-- A normal return. -/
def opOk (s : SEList α) : OpResult α := ⟨s, false⟩

/-- A raised exception. -/
def opRaise (s : SEList α) : OpResult α := ⟨s, true⟩

/-- Sequencing with exception propagation. -/
def OpResult.bind (r : OpResult α) (f : SEList α → OpResult α) : OpResult α :=
  if r.raised then r else f r.state

/-- Emit one list event, recording the current list contents. -/
def emit (s : SEList α) (e : ListEvent α) : SEList α :=
  { s with log := s.log ++ [(e, s.items)] }

/-- Add a value to a set modelled as a duplicate-free list. -/
def addToSet [DecidableEq α] (l : List α) (v : α) : List α :=
  if v ∈ l then l else l ++ [v]

/-- Remove a value from a set modelled as a duplicate-free list. -/
def removeFromSet [DecidableEq α] (l : List α) (v : α) : List α :=
  l.filter (fun x => decide (x ≠ v))

/-- Modelled from the spec: `EventedSet.add` (class not in the excerpt)
passes the value through the selection's `_pre_add_hook` and then adds it
to the set.  The hook is `SelectableEventedList._preselect_hook` from the
source: it raises `ValueError` — before any mutation — when the value is
not in the list. -/
def selection_add [DecidableEq α] (s : SEList α) (v : α) : OpResult α :=
  if v ∈ s.items then opOk { s with selection := addToSet s.selection v }
  else opRaise s

/-- Modelled from the spec: `EventedSet.discard` (class not in the
excerpt) removes a value from the selection when present and does nothing
otherwise; `_process_delete_item` from the source calls it for a deleted
list item. -/
def selection_discard [DecidableEq α] (s : SEList α) (v : α) : SEList α :=
  { s with selection := removeFromSet s.selection v }

/-- Modelled from the spec: `EventedSet.remove` (class not in the excerpt)
has Python `set.remove` semantics — remove the value, raising `KeyError`
when it is absent. -/
def selection_remove [DecidableEq α] (s : SEList α) (v : α) : OpResult α :=
  if v ∈ s.selection then
    opOk { s with selection := removeFromSet s.selection v }
  else opRaise s

/-- Modelled from the spec: `EventedSet.update` (class not in the excerpt)
adds every element of the iterable to the selection, each through the
pre-add hook. -/
def selection_update [DecidableEq α] (s : SEList α) : List α → OpResult α
  | [] => opOk s
  | v :: rest =>
      (selection_add s v).bind (fun s2 => selection_update s2 rest)

/-- Modelled from the spec: the `Selection.active` setter (class not in
the excerpt).  Per the comment at its call site in `insert` — "Make layer
selected and unselect all others" — the selection becomes the singleton of
the value (added through the pre-add hook) and the value becomes the
current item. -/
def setActive [DecidableEq α] (s : SEList α) (v : α) : OpResult α :=
  (selection_add { s with selection := [] } v).bind
    (fun s2 => opOk { s2 with current := some v })

/-- Python `list.index`: the first index holding the value, `ValueError`
(here `none`) when the value is absent. -/
def findIndex [DecidableEq α] : List α → α → Option Nat
  | [], _ => none
  | x :: xs, v =>
      if x = v then some 0 else (findIndex xs v).map (· + 1)

/-- Python `list.insert` for a non-negative index: insert before position
`i`, appending when `i ≥ len` (negative indices are outside the claims). -/
def insertAt (l : List α) (i : Nat) (v : α) : List α :=
  l.take i ++ v :: l.drop i

/-- Modelled from the spec: `EventedList.insert` (class not in the
excerpt) emits `inserting(index)` before the change and
`inserted(index, value)` after it, as documented in the
`SelectableEventedList` docstring. -/
def eventedInsert (s : SEList α) (i : Nat) (v : α) : SEList α :=
  let s1 := emit s (.inserting i)
  let s2 := { s1 with items := insertAt s1.items i v }
  emit s2 (.inserted i v)

/-- Method `SelectableEventedList.insert` from the source: `super().insert`, then,
when `_activate_on_insert` is set, make the inserted value the active
item. -/
def SEL_insert [DecidableEq α] (s : SEList α) (i : Nat) (v : α) :
    OpResult α :=
  let s1 := eventedInsert s i v
  if s1.activateOnInsert then setActive s1 v else opOk s1

/-- Modelled from the spec: `EventedList.remove` (class not in the
excerpt) looks up the first index of the value (`ValueError` when absent)
and deletes that index; the deletion emits `removing(index)` before the
change, calls `_process_delete_item` — which, in the source, discards the
item from the selection — deletes the element, and emits
`removed(index, value)` after the change. -/
def SEL_remove [DecidableEq α] (s : SEList α) (v : α) : OpResult α :=
  match findIndex s.items v with
  | none => opRaise s
  | some i =>
      let s1 := emit s (.removing i)
      let s2 := selection_discard s1 v
      let s3 := { s2 with items := s2.items.eraseIdx i }
      opOk (emit s3 (.removed i v))

/-- Method `select_all` from the source: update the selection with every list
item. -/
def select_all [DecidableEq α] (s : SEList α) : OpResult α :=
  selection_update s s.items

/-- The loop of `remove_selected`: for each item of the selection
snapshot, look up its index (a raise propagates) and remove it,
remembering the last index looked up. -/
def removeEach [DecidableEq α] (s : SEList α) (idx : Nat) :
    List α → OpResult α × Nat
  | [] => (opOk s, idx)
  | v :: rest =>
      match findIndex s.items v with
      | none => (opRaise s, idx)
      | some i =>
          let r := SEL_remove s v
          if r.raised then (r, i) else removeEach r.state i rest

/-- Method `remove_selected` from the source: remove every selected item,
iterating a snapshot of the selection with the last looked-up index
starting at 0, then add the item now at `max(0, idx - 1)` back to the
selection when the list is still longer than that index.  For a flat
(non-nested) list the `isinstance(idx, int)` test is always true, so only
that branch applies. -/
def remove_selected [DecidableEq α] (s : SEList α) : OpResult α :=
  let p := removeEach s 0 s.selection
  if p.1.raised then p.1
  else
    let new := max 0 (p.2 - 1)
    if h : new < p.1.state.items.length then
      selection_add p.1.state (p.1.state.items.get ⟨new, h⟩)
    else opOk p.1.state

/-- The `elif len(self) > 0` branch of `select_next`: activate the last
item for a positive step and the first item otherwise. -/
def select_next_default [DecidableEq α] (s : SEList α) (step : Int) :
    OpResult α :=
  match (if step > 0 then s.items.getLast? else s.items.head?) with
  | some v => setActive s v
  | none => opOk s

/-- Method `select_next` from the source: when the selection is non-empty and has
a current item, step from the current item's index; inside the list
bounds, shift-selection toggles membership of the target (moving the
current item), plain selection activates the target.  Otherwise, with a
non-empty list, activate the last (step forward) or first (step backward)
item.  An item is always truthy in the Python guard, so only `None`
falsifies `self.selection._current`. -/
def select_next [DecidableEq α] (s : SEList α) (step : Int) (shift : Bool) :
    OpResult α :=
  match s.current with
  | none => select_next_default s step
  | some cur =>
      if s.selection = [] then select_next_default s step
      else
        match findIndex s.items cur with
        | none => opRaise s
        | some i =>
            let idx : Int := (i : Int) + step
            if 0 ≤ idx ∧ idx < (s.items.length : Int) then
              match s.items[idx.toNat]? with
              | some next =>
                  if shift then
                    if next ∈ s.selection then
                      (selection_remove s cur).bind
                        (fun s2 => opOk { s2 with current := some next })
                    else
                      (selection_add s next).bind
                        (fun s2 => opOk { s2 with current := some next })
                  else setActive s next
              | none => opOk s
            else opOk s

/-- Method `select_previous` from the source: `select_next(-1, shift)`. -/
def select_previous [DecidableEq α] (s : SEList α) (shift : Bool) :
    OpResult α :=
  select_next s (-1) shift

/-- The selection invariant: every selected item is contained in the
list. -/
def selInv (s : SEList α) : Prop := ∀ x ∈ s.selection, x ∈ s.items

/-! ### Lemmas and theorems about `gl.py` -/

theorem kindMap_eq_none_iff (k : DtypeKind) :
    kindMap k = none ↔
      k ∉ [DtypeKind.i, DtypeKind.f, DtypeKind.u, DtypeKind.b] := by
  cases k <;> simp [kindMap]

theorem fix_ok_of_texture (a : NDArray) (h : a.dtype ∈ texture_dtypes) :
    fix_data_dtype a = .ok a := by
  simp [fix_data_dtype, h]

theorem fix_kind_b (a : NDArray) (h : a.dtype.kind = DtypeKind.b) :
    ∃ r, fix_data_dtype a = .ok r ∧ r.dtype = uint8 := by
  obtain ⟨⟨k, isz⟩, payload⟩ := a
  have hk : k = DtypeKind.b := h
  subst hk
  have hnm : (⟨DtypeKind.b, isz⟩ : Dtype) ∉ texture_dtypes := by
    simp [texture_dtypes, uint8, uint16, float32, Dtype.mk.injEq]
  refine ⟨astype ⟨⟨DtypeKind.b, isz⟩, payload⟩ uint8, ?_, rfl⟩
  simp [fix_data_dtype, hnm, kindMap, uint8, uint16, Dtype.mk.injEq]

theorem fix_kind_i (a : NDArray) (h : a.dtype.kind = DtypeKind.i) :
    ∃ r, fix_data_dtype a = .ok r ∧ r.dtype = float32 := by
  obtain ⟨⟨k, isz⟩, payload⟩ := a
  have hk : k = DtypeKind.i := h
  subst hk
  have hnm : (⟨DtypeKind.i, isz⟩ : Dtype) ∉ texture_dtypes := by
    simp [texture_dtypes, uint8, uint16, float32, Dtype.mk.injEq]
  refine ⟨astype ⟨⟨DtypeKind.i, isz⟩, payload⟩ float32, ?_, rfl⟩
  simp [fix_data_dtype, hnm, kindMap, float32, uint16, Dtype.mk.injEq]

theorem fix_kind_f (a : NDArray) (h : a.dtype.kind = DtypeKind.f) :
    ∃ r, fix_data_dtype a = .ok r ∧ r.dtype = float32 := by
  obtain ⟨⟨k, isz⟩, payload⟩ := a
  have hk : k = DtypeKind.f := h
  subst hk
  by_cases h4 : isz = 4
  · subst h4
    refine ⟨⟨⟨DtypeKind.f, 4⟩, payload⟩, ?_, rfl⟩
    exact fix_ok_of_texture _ (show (⟨DtypeKind.f, 4⟩ : Dtype) ∈ texture_dtypes by decide)
  · have hnm : (⟨DtypeKind.f, isz⟩ : Dtype) ∉ texture_dtypes := by
      simp [texture_dtypes, uint8, uint16, float32, Dtype.mk.injEq, h4]
    refine ⟨astype ⟨⟨DtypeKind.f, isz⟩, payload⟩ float32, ?_, rfl⟩
    simp [fix_data_dtype, hnm, kindMap, float32, uint16, Dtype.mk.injEq]

theorem fix_kind_u_gt2 (a : NDArray) (h : a.dtype.kind = DtypeKind.u)
    (hgt : a.dtype.itemsize > 2) :
    ∃ r, fix_data_dtype a = .ok r ∧ r.dtype = float32 := by
  obtain ⟨⟨k, isz⟩, payload⟩ := a
  have hk : k = DtypeKind.u := h
  subst hk
  have hgt2 : isz > 2 := hgt
  have hnm : (⟨DtypeKind.u, isz⟩ : Dtype) ∉ texture_dtypes := by
    simp only [texture_dtypes, uint8, uint16, float32, List.mem_cons,
      List.not_mem_nil, or_false, Dtype.mk.injEq]
    rintro (⟨_, h1⟩ | ⟨_, h2⟩ | ⟨hf, _⟩)
    · omega
    · omega
    · cases hf
  refine ⟨astype ⟨⟨DtypeKind.u, isz⟩, payload⟩ float32, ?_, rfl⟩
  simp [fix_data_dtype, hnm, kindMap, hgt2]

theorem fix_kind_u_le2 (a : NDArray) (h : a.dtype.kind = DtypeKind.u)
    (h8 : a.dtype ≠ uint8) (hle : a.dtype.itemsize ≤ 2) :
    ∃ r, fix_data_dtype a = .ok r ∧ r.dtype = uint16 := by
  obtain ⟨⟨k, isz⟩, payload⟩ := a
  have hk : k = DtypeKind.u := h
  subst hk
  have hle2 : isz ≤ 2 := hle
  have h1 : isz ≠ 1 := by
    intro h1
    exact h8 (by simp [uint8, Dtype.mk.injEq, h1])
  by_cases h2 : isz = 2
  · subst h2
    refine ⟨⟨⟨DtypeKind.u, 2⟩, payload⟩, ?_, rfl⟩
    exact fix_ok_of_texture _ (show (⟨DtypeKind.u, 2⟩ : Dtype) ∈ texture_dtypes by decide)
  · have hnm : (⟨DtypeKind.u, isz⟩ : Dtype) ∉ texture_dtypes := by
      simp only [texture_dtypes, uint8, uint16, float32, List.mem_cons,
        List.not_mem_nil, or_false, Dtype.mk.injEq]
      rintro (⟨_, hh⟩ | ⟨_, hh⟩ | ⟨hf, _⟩)
      · exact h1 hh
      · exact h2 hh
      · cases hf
    refine ⟨astype ⟨⟨DtypeKind.u, isz⟩, payload⟩ uint16, ?_, rfl⟩
    have hngt : ¬ isz > 2 := by omega
    simp [fix_data_dtype, hnm, kindMap, hngt]

theorem fix_result_texture (a r : NDArray)
    (h : fix_data_dtype a = .ok r) : r.dtype ∈ texture_dtypes := by
  by_cases hm : a.dtype ∈ texture_dtypes
  · rw [fix_ok_of_texture a hm] at h
    cases h
    exact hm
  · rcases hk : kindMap a.dtype.kind with _ | d0
    · simp [fix_data_dtype, hm, hk] at h
    · simp only [fix_data_dtype, hm, if_false, hk] at h
      have hr : r = astype a (if d0 = uint16 ∧ a.dtype.itemsize > 2
          then float32 else d0) := by
        cases h
        rfl
      subst hr
      have hd0 : d0 ∈ texture_dtypes := by
        cases hkk : a.dtype.kind <;> rw [hkk] at hk <;>
          simp only [kindMap, Option.some.injEq, reduceCtorEq] at hk <;>
          (subst hk; decide)
      unfold astype
      split
      · exact (show float32 ∈ texture_dtypes by decide)
      · exact hd0

/-- C4: for every array whose dtype is already one of the accepted texture
dtypes `uint8`, `uint16`, `float32`, `fix_data_dtype` returns the input
array itself, unchanged. -/
theorem fix_data_dtype_id_on_texture (a : NDArray)
    (h : a.dtype ∈ texture_dtypes) : fix_data_dtype a = .ok a :=
  fix_ok_of_texture a h

/-- Witness for C4 at a concrete `uint16` array. -/
theorem fix_data_dtype_id_on_texture_witness :
    (⟨uint16, [3, 5]⟩ : NDArray).dtype ∈ texture_dtypes ∧
      fix_data_dtype ⟨uint16, [3, 5]⟩ = .ok ⟨uint16, [3, 5]⟩ :=
  ⟨by decide, fix_data_dtype_id_on_texture ⟨uint16, [3, 5]⟩ (by decide)⟩

/-- C2: `fix_data_dtype` raises `TypeError` if and only if the dtype is
not an accepted texture dtype and its kind is none of `i`, `f`, `u`, `b`;
in every other case it returns an array without raising. -/
theorem fix_data_dtype_typeerror_iff (a : NDArray) :
    ((∃ e, fix_data_dtype a = .error e) ↔
      a.dtype ∉ texture_dtypes ∧
        a.dtype.kind ∉ [DtypeKind.i, DtypeKind.f, DtypeKind.u, DtypeKind.b]) ∧
    (a.dtype ∈ texture_dtypes ∨
        a.dtype.kind ∈ [DtypeKind.i, DtypeKind.f, DtypeKind.u, DtypeKind.b] →
      ∃ r, fix_data_dtype a = .ok r) := by
  by_cases hm : a.dtype ∈ texture_dtypes
  · simp [fix_data_dtype, hm]
  · rcases hk : kindMap a.dtype.kind with _ | d0
    · have hknot := (kindMap_eq_none_iff a.dtype.kind).mp hk
      constructor
      · simp [fix_data_dtype, hm, hk, hknot]
      · rintro (h | h)
        · exact absurd h hm
        · exact absurd h hknot
    · have hkin : a.dtype.kind ∈
          [DtypeKind.i, DtypeKind.f, DtypeKind.u, DtypeKind.b] := by
        by_contra hc
        rw [← kindMap_eq_none_iff, hk] at hc
        exact Option.some_ne_none _ hc
      constructor
      · constructor
        · rintro ⟨e, he⟩
          simp [fix_data_dtype, hm, hk] at he
        · rintro ⟨_, h2⟩
          exact absurd hkin h2
      · intro _
        refine ⟨astype a (if d0 = uint16 ∧ a.dtype.itemsize > 2
          then float32 else d0), ?_⟩
        simp [fix_data_dtype, hm, hk]

/-- Witness for C2: a `float32` array is returned without raising. -/
theorem fix_data_dtype_typeerror_iff_witness :
    ∃ r, fix_data_dtype ⟨float32, [0]⟩ = .ok r :=
  (fix_data_dtype_typeerror_iff ⟨float32, [0]⟩).2 (Or.inl (by decide))

/-- C1 counterexample: a `uint8` array is an unsigned-integer array of
itemsize at most 2, yet `fix_data_dtype` returns it with dtype `uint8`,
not `uint16` as the claim's mapping requires. -/
theorem fix_data_dtype_uint8_not_uint16 :
    uint8.kind = DtypeKind.u ∧ uint8.itemsize ≤ 2 ∧
      fix_data_dtype ⟨uint8, [7]⟩ = .ok ⟨uint8, [7]⟩ ∧ uint8 ≠ uint16 :=
  ⟨rfl, by decide, rfl, by decide⟩

/-- C1 amended: on kinds `b`, `i`, `u`, `f` the result dtype is an
accepted texture dtype; bool maps to `uint8`, signed integers and floats to
`float32`, unsigned integers of itemsize greater than 2 to `float32`, and
unsigned integers of itemsize at most 2 to `uint16` — except `uint8`
itself, which is already accepted and is returned unchanged with dtype
`uint8`. -/
theorem fix_data_dtype_mapping (a : NDArray) :
    (a.dtype.kind = DtypeKind.b →
      ∃ r, fix_data_dtype a = .ok r ∧ r.dtype = uint8) ∧
    (a.dtype.kind = DtypeKind.i →
      ∃ r, fix_data_dtype a = .ok r ∧ r.dtype = float32) ∧
    (a.dtype.kind = DtypeKind.f →
      ∃ r, fix_data_dtype a = .ok r ∧ r.dtype = float32) ∧
    (a.dtype = uint8 → fix_data_dtype a = .ok a) ∧
    (a.dtype.kind = DtypeKind.u → a.dtype ≠ uint8 → a.dtype.itemsize ≤ 2 →
      ∃ r, fix_data_dtype a = .ok r ∧ r.dtype = uint16) ∧
    (a.dtype.kind = DtypeKind.u → a.dtype.itemsize > 2 →
      ∃ r, fix_data_dtype a = .ok r ∧ r.dtype = float32) ∧
    (a.dtype.kind ∈ [DtypeKind.b, DtypeKind.i, DtypeKind.u, DtypeKind.f] →
      ∃ r, fix_data_dtype a = .ok r ∧ r.dtype ∈ texture_dtypes) := by
  refine ⟨fix_kind_b a, fix_kind_i a, fix_kind_f a,
    fun h8 => fix_ok_of_texture a (by rw [h8]; decide),
    fix_kind_u_le2 a, fix_kind_u_gt2 a, ?_⟩
  intro hkin
  simp only [List.mem_cons, List.not_mem_nil, or_false] at hkin
  have htex : ∀ d, d ∈ texture_dtypes ∨ d = float32 ∨ d = uint16 ∨
      d = uint8 → d ∈ texture_dtypes := by
    rintro d (h | h | h | h) <;> first | exact h | (subst h; decide)
  rcases hkin with h | h | h | h
  · obtain ⟨r, hr, hd⟩ := fix_kind_b a h
    exact ⟨r, hr, htex _ (Or.inr (Or.inr (Or.inr hd)))⟩
  · obtain ⟨r, hr, hd⟩ := fix_kind_i a h
    exact ⟨r, hr, htex _ (Or.inr (Or.inl hd))⟩
  · by_cases h8 : a.dtype = uint8
    · exact ⟨a, fix_ok_of_texture a (by rw [h8]; decide), by rw [h8]; decide⟩
    · by_cases hgt : a.dtype.itemsize > 2
      · obtain ⟨r, hr, hd⟩ := fix_kind_u_gt2 a h hgt
        exact ⟨r, hr, htex _ (Or.inr (Or.inl hd))⟩
      · obtain ⟨r, hr, hd⟩ := fix_kind_u_le2 a h h8 (by omega)
        exact ⟨r, hr, htex _ (Or.inr (Or.inr (Or.inl hd)))⟩
  · obtain ⟨r, hr, hd⟩ := fix_kind_f a h
    exact ⟨r, hr, htex _ (Or.inr (Or.inl hd))⟩

/-- Witness for C1 amended at a concrete `uint32`-like array (unsigned,
itemsize 4): the result has dtype `float32`. -/
theorem fix_data_dtype_mapping_witness :
    ∃ r, fix_data_dtype ⟨⟨.u, 4⟩, [9]⟩ = .ok r ∧ r.dtype = float32 :=
  (fix_data_dtype_mapping ⟨⟨.u, 4⟩, [9]⟩).2.2.2.2.2.1 rfl (by decide)

/-- C5: `fix_data_dtype` is idempotent — whenever it returns a result
without raising, applying it to that result returns the result
unchanged. -/
theorem fix_data_dtype_idem (a r : NDArray)
    (h : fix_data_dtype a = .ok r) : fix_data_dtype r = .ok r :=
  fix_ok_of_texture r (fix_result_texture a r h)

/-- Witness for C5 at a concrete signed-integer array. -/
theorem fix_data_dtype_idem_witness :
    fix_data_dtype ⟨⟨.i, 8⟩, [2]⟩ = .ok ⟨float32, [2]⟩ ∧
      fix_data_dtype ⟨float32, [2]⟩ = .ok ⟨float32, [2]⟩ :=
  ⟨rfl, fix_data_dtype_idem ⟨⟨.i, 8⟩, [2]⟩ ⟨float32, [2]⟩ rfl⟩

theorem glCallSeq_eq (envs : Nat → GLEnv) (n : Nat) :
    glCallSeq envs n =
      (get_max_texture_sizes_body (envs 0),
        ⟨some (get_max_texture_sizes_body (envs 0))⟩) := by
  induction n with
  | zero => rfl
  | succ m ih =>
      rw [glCallSeq, ih]
      rfl

/-- C8: every call of the cached `get_max_texture_sizes` returns the pair
of limits computed from the GL state at the time of the first call, each
component being `None` exactly when the corresponding query answered the
empty tuple; in particular every call returns the same value as the first
call. -/
theorem get_max_texture_sizes_spec (envs : Nat → GLEnv) (n : Nat) :
    (glCallSeq envs n).1 = get_max_texture_sizes_body (envs 0) ∧
    (glCallSeq envs n).1 = (glCallSeq envs 0).1 ∧
    ((glCallSeq envs n).1.1 = none ↔ (envs 0).maxTextureSize = .empty) ∧
    ((glCallSeq envs n).1.2 = none ↔ (envs 0).max3DTextureSize = .empty) := by
  rw [glCallSeq_eq envs n, glCallSeq_eq envs 0]
  refine ⟨rfl, rfl, ?_, ?_⟩
  · cases h : (envs 0).maxTextureSize <;>
      simp [get_max_texture_sizes_body, glNormalize, h]
  · cases h : (envs 0).max3DTextureSize <;>
      simp [get_max_texture_sizes_body, glNormalize, h]

/-! ### Lemmas and theorems about `SelectableEventedList` -/

theorem mem_addToSet [DecidableEq α] (l : List α) (v x : α) :
    x ∈ addToSet l v ↔ x ∈ l ∨ x = v := by
  by_cases hv : v ∈ l
  · simp only [addToSet, if_pos hv]
    constructor
    · exact Or.inl
    · rintro (h | rfl)
      · exact h
      · exact hv
  · simp [addToSet, hv, List.mem_append]

theorem mem_removeFromSet [DecidableEq α] (l : List α) (v x : α) :
    x ∈ removeFromSet l v ↔ x ∈ l ∧ x ≠ v := by
  simp [removeFromSet, List.mem_filter]

theorem findIndex_some [DecidableEq α] (l : List α) (v : α) (i : Nat)
    (h : findIndex l v = some i) : i < l.length ∧ l[i]? = some v := by
  induction l generalizing i with
  | nil => cases h
  | cons x xs ih =>
      by_cases hx : x = v
      · rw [findIndex, if_pos hx] at h
        cases h
        exact ⟨Nat.succ_pos _, by simp [hx]⟩
      · rw [findIndex, if_neg hx] at h
        obtain ⟨j, hj, rfl⟩ := Option.map_eq_some'.mp h
        obtain ⟨hlen, hget⟩ := ih j hj
        exact ⟨by simpa using Nat.succ_lt_succ hlen, by simpa using hget⟩

theorem findIndex_none_not_mem [DecidableEq α] (l : List α) (v : α)
    (h : findIndex l v = none) : v ∉ l := by
  induction l with
  | nil => simp
  | cons x xs ih =>
      by_cases hx : x = v
      · rw [findIndex, if_pos hx] at h
        cases h
      · rw [findIndex, if_neg hx] at h
        have hxs := ih (Option.map_eq_none'.mp h)
        simp only [List.mem_cons, not_or]
        exact ⟨fun hc => hx hc.symm, hxs⟩

theorem mem_eraseIdx_of_ne (l : List α) (i : Nat) (v x : α)
    (hv : l[i]? = some v) (hx : x ∈ l) (hne : x ≠ v) :
    x ∈ l.eraseIdx i := by
  have hilen : i < l.length := by
    by_contra hc
    rw [List.getElem?_eq_none (by omega)] at hv
    cases hv
  have hdrop : l.drop i = v :: l.drop (i + 1) := by
    rw [List.drop_eq_getElem_cons hilen]
    rw [List.getElem?_eq_getElem hilen] at hv
    cases hv
    rfl
  have hsplit : l = l.take i ++ l.drop i := (List.take_append_drop i l).symm
  rw [List.eraseIdx_eq_take_drop_succ]
  rcases List.mem_append.mp (hsplit ▸ hx) with h | h
  · exact List.mem_append.mpr (Or.inl h)
  · rw [hdrop] at h
    rcases List.mem_cons.mp h with rfl | h
    · exact absurd rfl hne
    · exact List.mem_append.mpr (Or.inr h)

theorem selInv_selection_add [DecidableEq α] (s : SEList α) (v : α)
    (hinv : selInv s) : selInv (selection_add s v).state := by
  unfold selection_add
  split
  · rename_i hv
    intro x hx
    rcases (mem_addToSet s.selection v x).mp hx with h | rfl
    · exact hinv x h
    · exact hv
  · exact hinv

theorem selection_add_not_mem [DecidableEq α] (s : SEList α) (v : α)
    (h : v ∉ s.items) : selection_add s v = opRaise s := by
  simp [selection_add, h]

theorem selInv_setActive [DecidableEq α] (s : SEList α) (v : α) :
    selInv (setActive s v).state := by
  have h0 : selInv ({ s with selection := ([] : List α) }) := by
    intro x hx
    cases hx
  have h1 := selInv_selection_add { s with selection := [] } v h0
  unfold setActive OpResult.bind
  split
  · exact h1
  · exact h1

theorem selInv_selection_update [DecidableEq α] (vs : List α) :
    ∀ s : SEList α, selInv s → selInv (selection_update s vs).state := by
  induction vs with
  | nil =>
      intro s h
      exact h
  | cons v rest ih =>
      intro s h
      unfold selection_update OpResult.bind
      split
      · exact selInv_selection_add s v h
      · exact ih _ (selInv_selection_add s v h)

theorem selInv_selection_remove [DecidableEq α] (s : SEList α) (v : α)
    (h : selInv s) : selInv (selection_remove s v).state := by
  unfold selection_remove
  split
  · intro x hx
    rcases (mem_removeFromSet s.selection v x).mp hx with ⟨hmem, _⟩
    exact h x hmem
  · exact h

theorem selInv_SEL_remove [DecidableEq α] (s : SEList α) (v : α)
    (h : selInv s) : selInv (SEL_remove s v).state := by
  cases hf : findIndex s.items v with
  | none =>
      simp only [SEL_remove, hf]
      exact h
  | some i =>
      obtain ⟨hilen, hgv⟩ := findIndex_some s.items v i hf
      simp only [SEL_remove, hf]
      intro x hx
      rcases (mem_removeFromSet s.selection v x).mp hx with ⟨hmem, hne⟩
      exact mem_eraseIdx_of_ne s.items i v x hgv (h x hmem) hne

theorem SEL_remove_not_selected [DecidableEq α] (s : SEList α) (v : α)
    (h : selInv s) : v ∉ (SEL_remove s v).state.selection := by
  cases hf : findIndex s.items v with
  | none =>
      simp only [SEL_remove, hf]
      intro hc
      exact findIndex_none_not_mem s.items v hf (h v hc)
  | some i =>
      simp only [SEL_remove, hf]
      intro hc
      rcases (mem_removeFromSet s.selection v v).mp hc with ⟨_, hne⟩
      exact hne rfl

theorem selInv_removeEach [DecidableEq α] (vs : List α) :
    ∀ (s : SEList α) (idx : Nat), selInv s →
      selInv (removeEach s idx vs).1.state := by
  induction vs with
  | nil =>
      intro s idx h
      exact h
  | cons v rest ih =>
      intro s idx h
      cases hf : findIndex s.items v with
      | none =>
          simp only [removeEach, hf]
          exact h
      | some i =>
          simp only [removeEach, hf]
          split
          · exact selInv_SEL_remove s v h
          · exact ih _ _ (selInv_SEL_remove s v h)

theorem selInv_remove_selected [DecidableEq α] (s : SEList α)
    (h : selInv s) : selInv (remove_selected s).state := by
  have h1 := selInv_removeEach s.selection s 0 h
  unfold remove_selected
  dsimp only
  split
  · exact h1
  · split
    · exact selInv_selection_add _ _ h1
    · exact h1

theorem selInv_select_next_default [DecidableEq α] (s : SEList α)
    (step : Int) (h : selInv s) :
    selInv (select_next_default s step).state := by
  cases hm : (if step > 0 then s.items.getLast? else s.items.head?) with
  | none =>
      simp only [select_next_default, hm]
      exact h
  | some v =>
      simp only [select_next_default, hm]
      exact selInv_setActive s v

theorem selInv_select_next [DecidableEq α] (s : SEList α) (step : Int)
    (shift : Bool) (h : selInv s) :
    selInv (select_next s step shift).state := by
  cases hc : s.current with
  | none =>
      simp only [select_next, hc]
      exact selInv_select_next_default s step h
  | some cur =>
      by_cases hsel : s.selection = []
      · simp only [select_next, hc, if_pos hsel]
        exact selInv_select_next_default s step h
      · simp only [select_next, hc, if_neg hsel]
        cases hf : findIndex s.items cur with
        | none =>
            simp only [hf]
            exact h
        | some i =>
            simp only [hf]
            split
            · cases hg : s.items[((i : Int) + step).toNat]? with
              | none =>
                  simp only [hg]
                  exact h
              | some next =>
                  simp only [hg]
                  cases shift with
                  | false =>
                      simp only [Bool.false_eq_true, if_false]
                      exact selInv_setActive s next
                  | true =>
                      simp only [if_true]
                      by_cases hns : next ∈ s.selection
                      · simp only [if_pos hns, OpResult.bind]
                        split
                        · exact selInv_selection_remove s cur h
                        · intro x hx
                          exact selInv_selection_remove s cur h x hx
                      · simp only [if_neg hns, OpResult.bind]
                        split
                        · exact selInv_selection_add s next h
                        · intro x hx
                          exact selInv_selection_add s next h x hx
            · exact h

theorem selInv_select_previous [DecidableEq α] (s : SEList α)
    (shift : Bool) (h : selInv s) :
    selInv (select_previous s shift).state :=
  selInv_select_next s (-1) shift h

theorem mem_insertAt_of_mem (l : List α) (i : Nat) (v x : α)
    (h : x ∈ l) : x ∈ insertAt l i v := by
  unfold insertAt
  rw [List.mem_append, List.mem_cons]
  rcases List.mem_append.mp
      (show x ∈ l.take i ++ l.drop i by
        rw [List.take_append_drop]
        exact h) with h1 | h1
  · exact Or.inl h1
  · exact Or.inr (Or.inr h1)

theorem mem_insertAt_self (l : List α) (i : Nat) (v : α) :
    v ∈ insertAt l i v :=
  List.mem_append.mpr (Or.inr (List.mem_cons_self v _))

theorem selInv_eventedInsert (s : SEList α) (i : Nat) (v : α)
    (h : selInv s) : selInv (eventedInsert s i v) := by
  intro x hx
  exact mem_insertAt_of_mem s.items i v x (h x hx)

theorem selInv_SEL_insert [DecidableEq α] (s : SEList α) (i : Nat) (v : α)
    (h : selInv s) : selInv (SEL_insert s i v).state := by
  unfold SEL_insert
  dsimp only
  split
  · exact selInv_setActive _ v
  · exact selInv_eventedInsert s i v h

/-- C3: every public operation of `SelectableEventedList` preserves the
invariant that the selection is a subset of the list contents; selecting
an item not in the list raises `ValueError` with the state (in particular
the selection) unchanged, and removing an item from the list discards it
from the selection. -/
theorem selection_subset_invariant [DecidableEq α] (s : SEList α)
    (hinv : selInv s) :
    (∀ i v, selInv (SEL_insert s i v).state) ∧
    (∀ v, selInv (SEL_remove s v).state) ∧
    (∀ v, v ∉ (SEL_remove s v).state.selection) ∧
    selInv (remove_selected s).state ∧
    selInv (select_all s).state ∧
    (∀ step shift, selInv (select_next s step shift).state) ∧
    (∀ shift, selInv (select_previous s shift).state) ∧
    (∀ v, selInv (selection_add s v).state) ∧
    (∀ v, v ∉ s.items →
      (selection_add s v).raised = true ∧ (selection_add s v).state = s) :=
  ⟨fun i v => selInv_SEL_insert s i v hinv,
    fun v => selInv_SEL_remove s v hinv,
    fun v => SEL_remove_not_selected s v hinv,
    selInv_remove_selected s hinv,
    selInv_selection_update s.items s hinv,
    fun step shift => selInv_select_next s step shift hinv,
    fun shift => selInv_select_previous s shift hinv,
    fun v => selInv_selection_add s v hinv,
    fun v hv => by rw [selection_add_not_mem s v hv]; exact ⟨rfl, rfl⟩⟩

/-- Witness for C3 on a concrete two-element list with one selected
item. -/
theorem selection_subset_invariant_witness :
    selInv ((SEL_insert (⟨[1, 2], [1], some 1, true, []⟩ : SEList Nat)
      0 5).state) :=
  (selection_subset_invariant ⟨[1, 2], [1], some 1, true, []⟩
    (by unfold selInv; decide)).1 0 5

theorem setActive_of_mem [DecidableEq α] (s : SEList α) (v : α)
    (h : v ∈ s.items) :
    setActive s v = opOk { s with selection := [v], current := some v } := by
  have h2 : v ∈ ({ s with selection := ([] : List α) } : SEList α).items := h
  simp only [setActive, selection_add, if_pos h2, OpResult.bind, opOk,
    addToSet, List.not_mem_nil, if_false, List.nil_append,
    Bool.false_eq_true]

theorem eventedInsert_eq (s : SEList α) (i : Nat) (v : α) :
    eventedInsert s i v =
      { items := insertAt s.items i v, selection := s.selection,
        current := s.current, activateOnInsert := s.activateOnInsert,
        log := s.log ++ [(.inserting i, s.items),
          (.inserted i v, insertAt s.items i v)] } := by
  unfold eventedInsert emit
  dsimp only
  rw [List.append_assoc]
  rfl

theorem SEL_insert_eq [DecidableEq α] (s : SEList α) (i : Nat) (v : α) :
    SEL_insert s i v =
      if s.activateOnInsert = true then
        opOk
          { items := insertAt s.items i v, selection := [v],
            current := some v, activateOnInsert := s.activateOnInsert,
            log := s.log ++ [(.inserting i, s.items),
              (.inserted i v, insertAt s.items i v)] }
      else
        opOk
          { items := insertAt s.items i v, selection := s.selection,
            current := s.current, activateOnInsert := s.activateOnInsert,
            log := s.log ++ [(.inserting i, s.items),
              (.inserted i v, insertAt s.items i v)] } := by
  unfold SEL_insert
  rw [eventedInsert_eq]
  dsimp only
  by_cases ha : s.activateOnInsert = true
  · rw [if_pos ha, if_pos ha,
      setActive_of_mem _ v (mem_insertAt_self s.items i v)]
  · rw [if_neg ha, if_neg ha]

theorem insertAt_getElem (l : List α) (i : Nat) (v : α)
    (h : i ≤ l.length) :
    (insertAt l i v).length = l.length + 1 ∧
    (insertAt l i v)[i]? = some v ∧
    (∀ j, j < i → (insertAt l i v)[j]? = l[j]?) ∧
    (∀ j, i ≤ j → j < l.length → (insertAt l i v)[j + 1]? = l[j]?) := by
  have hlt : (l.take i).length = i := by
    rw [List.length_take]
    omega
  refine ⟨?_, ?_, ?_, ?_⟩
  · simp only [insertAt, List.length_append, List.length_take,
      List.length_cons, List.length_drop]
    omega
  · unfold insertAt
    rw [List.getElem?_append_right (by omega : (l.take i).length ≤ i), hlt]
    simp
  · intro j hj
    unfold insertAt
    rw [List.getElem?_append_left (by omega : j < (l.take i).length)]
    exact List.getElem?_take_of_lt hj
  · intro j hij hjl
    unfold insertAt
    rw [List.getElem?_append_right (by omega : (l.take i).length ≤ j + 1),
      hlt]
    have hstep : j + 1 - i = (j - i) + 1 := by omega
    rw [hstep]
    simp only [List.getElem?_cons_succ]
    rw [List.getElem?_drop]
    congr 1
    omega

/-- C6: `insert(i, value)` at an index `0 ≤ i ≤ len` never raises, puts
`value` at position `i`, keeps the elements before `i` in place, and
shifts the elements from `i` on by one position, preserving their
order. -/
theorem SEL_insert_ordering [DecidableEq α] (s : SEList α) (i : Nat)
    (v : α) (h : i ≤ s.items.length) :
    (SEL_insert s i v).raised = false ∧
    (SEL_insert s i v).state.items.length = s.items.length + 1 ∧
    (SEL_insert s i v).state.items[i]? = some v ∧
    (∀ j, j < i → (SEL_insert s i v).state.items[j]? = s.items[j]?) ∧
    (∀ j, i ≤ j → j < s.items.length →
      (SEL_insert s i v).state.items[j + 1]? = s.items[j]?) := by
  have hitems : (SEL_insert s i v).state.items = insertAt s.items i v := by
    rw [SEL_insert_eq]
    split <;> rfl
  have hraised : (SEL_insert s i v).raised = false := by
    rw [SEL_insert_eq]
    split <;> rfl
  obtain ⟨h1, h2, h3, h4⟩ := insertAt_getElem s.items i v h
  rw [hitems]
  exact ⟨hraised, h1, h2, h3, h4⟩

/-- Witness for C6: inserting 9 at index 1 of a three-element list. -/
theorem SEL_insert_ordering_witness :
    (1 : Nat) ≤ ([4, 5, 6] : List Nat).length ∧
      (SEL_insert (⟨[4, 5, 6], [], none, true, []⟩ : SEList Nat)
        1 9).state.items[1]? = some 9 :=
  ⟨by decide,
    (SEL_insert_ordering ⟨[4, 5, 6], [], none, true, []⟩ 1 9
      (by decide)).2.2.1⟩

/-- C7: each insertion emits `inserting(i)` before the change and
`inserted(i, value)` after it, and each removal of a value found at index
`i` emits `removing(i)` before the change and `removed(i, value)` after
it; the list contents recorded next to each event witness that the first
event of each pair sees the pre-change list and the second the
post-change list. -/
theorem SEL_event_protocol [DecidableEq α] (s : SEList α) :
    (∀ i v, (SEL_insert s i v).state.log =
      s.log ++ [(.inserting i, s.items),
        (.inserted i v, insertAt s.items i v)]) ∧
    (∀ v i, findIndex s.items v = some i →
      (SEL_remove s v).state.log =
        s.log ++ [(.removing i, s.items),
          (.removed i v, s.items.eraseIdx i)]) := by
  constructor
  · intro i v
    rw [SEL_insert_eq]
    split <;> rfl
  · intro v i hf
    simp only [SEL_remove, hf]
    dsimp only [emit, selection_discard]
    rw [List.append_assoc]
    rfl

/-- Witness for C7: removing the value 5, found at index 1, from a
two-element list logs the removal event pair. -/
theorem SEL_event_protocol_witness :
    (SEL_remove (⟨[4, 5], [], none, true, []⟩ : SEList Nat) 5).state.log =
      [(.removing 1, [4, 5]), (.removed 1 5, [4])] :=
  (SEL_event_protocol ⟨[4, 5], [], none, true, []⟩).2 5 1 (by decide)

/-- C9: with `_activate_on_insert` at its default `True`, after
`insert(index, value)` the selection is exactly the singleton of the
inserted value and the inserted value is the current (active) item. -/
theorem SEL_insert_activates [DecidableEq α] (s : SEList α) (i : Nat)
    (v : α) (h : s.activateOnInsert = true) :
    (SEL_insert s i v).state.selection = [v] ∧
    (SEL_insert s i v).state.current = some v ∧
    (SEL_insert s i v).raised = false := by
  rw [SEL_insert_eq, if_pos h]
  exact ⟨rfl, rfl, rfl⟩

/-- Witness for C9: inserting 7 into a list with another item selected
leaves exactly 7 selected. -/
theorem SEL_insert_activates_witness :
    (SEL_insert (⟨[1, 2], [2], some 2, true, []⟩ : SEList Nat)
      0 7).state.selection = [7] :=
  (SEL_insert_activates ⟨[1, 2], [2], some 2, true, []⟩ 0 7 rfl).1

/-- C10: with an empty selection `remove_selected` removes no items (the
loop over the selection snapshot runs zero times, so the last-removed
index defaults to 0) and, when the list is non-empty, adds the element at
index 0 to the selection; with an empty list the selection stays
empty. -/
theorem remove_selected_empty_selection [DecidableEq α] (s : SEList α)
    (h : s.selection = []) :
    (remove_selected s).raised = false ∧
    (remove_selected s).state.items = s.items ∧
    (s.items = [] → (remove_selected s).state.selection = []) ∧
    (∀ x, s.items.head? = some x →
      (remove_selected s).state.selection = [x]) := by
  obtain ⟨items, sel, cur, act, log⟩ := s
  subst h
  cases items with
  | nil =>
      refine ⟨rfl, rfl, fun _ => rfl, ?_⟩
      intro x hx
      cases hx
  | cons a t =>
      have hlen : (0 : Nat) ⊔ (0 - 1) < (a :: t).length := by
        simp
      have hmem : a ∈ (a :: t) := List.mem_cons_self a t
      unfold remove_selected removeEach
      dsimp only [opOk]
      simp only [Bool.false_eq_true, if_false]
      rw [dif_pos hlen]
      have hget : (a :: t).get ⟨0 ⊔ (0 - 1), hlen⟩ = a := rfl
      rw [hget]
      simp only [selection_add]
      rw [if_pos hmem]
      dsimp only [opOk]
      refine ⟨rfl, rfl, ?_, ?_⟩
      · intro hc
        cases hc
      · intro x hx
        rw [List.head?_cons, Option.some.injEq] at hx
        subst hx
        simp [addToSet]

/-- Witness for C10: on a two-element list with nothing selected,
`remove_selected` keeps the items and selects the element at index 0. -/
theorem remove_selected_empty_selection_witness :
    (remove_selected (⟨[8, 9], [], none, true, []⟩ : SEList Nat)).state.items
        = [8, 9] ∧
      (remove_selected (⟨[8, 9], [], none, true,
        []⟩ : SEList Nat)).state.selection = [8] :=
  ⟨(remove_selected_empty_selection ⟨[8, 9], [], none, true, []⟩ rfl).2.1,
    (remove_selected_empty_selection ⟨[8, 9], [], none, true, []⟩
      rfl).2.2.2 8 rfl⟩

end Napari
